import Mathlib

/-!
Verification of the region RPC advertising service
(`src/maasserver/rpc/regionservice.py`).

The `eventloops` table is modelled as a list of rows; each SQL statement of
`RegionAdvertisingService` becomes a Lean function on that list.  Timestamps
are integers (seconds); `NOW()` is passed in explicitly as `now`.  A Django
transaction (`transactional`) is modelled by `Except`: a constraint violation
makes the whole operation return `.error`, and `runTransactional` gives the
post-state of the database, rolling back to the pre-state on error.
-/

namespace RegionService

/-- One row of the `eventloops` table (`_create_statement`):
`name TEXT, address INET, port INTEGER, updated TIMESTAMPTZ DEFAULT NOW()`. -/
structure Row where
  name : String
  address : String
  port : Nat
  updated : Int
deriving DecidableEq, Repr

abbrev Table := List Row

/-- The `CHECK (port > 0 AND port <= 65535)` constraint from
`_create_statement`. -/
def portOk (p : Nat) : Bool :=
  0 < p && p ≤ 65535

/-- A new row `r` violates a uniqueness constraint against an existing row `s`:
`UNIQUE (address, port)` or `UNIQUE (name, address, port)`
(`_create_statement`). -/
def rowConflict (s r : Row) : Bool :=
  (s.address == r.address && s.port == r.port)
    || (s.name == r.name && s.address == r.address && s.port == r.port)

/-- Insert a single row, enforcing the CHECK and UNIQUE constraints of
`_create_statement`; a violation aborts with an error. -/
def insertRow (t : Table) (r : Row) : Except Unit Table :=
  if !portOk r.port then .error ()
  else if t.any (fun s => rowConflict s r) then .error ()
  else .ok (t ++ [r])

/-- Insert the rows of one multi-`VALUES` `INSERT` statement in order; any
constraint violation fails the whole statement. -/
def insertRows (t : Table) (rs : List Row) : Except Unit Table :=
  rs.foldlM insertRow t

/-- Statement `_do_delete`: `DELETE FROM eventloops WHERE name = %s` with this
process's event-loop name. -/
def do_delete (name : String) (t : Table) : Table :=
  t.filter (fun r => r.name != name)

/-- Statement `_do_insert`: build one `(name, addr, port)` VALUES group per advertised
pair and execute a single `INSERT` — but only when the pair list is nonempty
(`if len(statement) != 0`).  Fresh rows get `updated = NOW()` by the column
default. -/
def do_insert (name : String) (pairs : List (String × Nat)) (now : Int)
    (t : Table) : Except Unit Table :=
  if pairs.isEmpty then .ok t
  else insertRows t (pairs.map fun p => ⟨name, p.1, p.2, now⟩)

/-- The staleness TTL: `INTERVAL '5 minutes'`, in seconds. -/
def staleTTL : Int := 5 * 60

/-- Statement `_do_collect`: `DELETE FROM eventloops WHERE updated < NOW() - INTERVAL
'5 minutes'`, regardless of the row's owner. -/
def do_collect (now : Int) (t : Table) : Table :=
  t.filter (fun r => !decide (r.updated < now - staleTTL))

/-- Method `update()`: inside one transaction, `_do_delete`, then `_do_insert`,
then `_do_collect`.  An error from the insert aborts the transaction. -/
def update (name : String) (pairs : List (String × Nat)) (now : Int)
    (t : Table) : Except Unit Table :=
  match do_insert name pairs now (do_delete name t) with
  | .error e => .error e
  | .ok t1 => .ok (do_collect now t1)

/-- Method `remove()`: inside one transaction, just `_do_delete`. -/
def remove (name : String) (t : Table) : Table :=
  do_delete name t

/-- Method `dump()` via `_do_select`: `SELECT name, address, port FROM eventloops`. -/
def dump (t : Table) : List (String × String × Nat) :=
  t.map fun r => (r.name, r.address, r.port)

/-- The post-state of the database after a `transactional` operation:
on success the new table, on error a rollback to the old one. -/
def runTransactional (t : Table) (r : Except Unit Table) : Table :=
  match r with
  | .ok t' => t'
  | .error _ => t

/-- The table's declared integrity constraints: no two rows share
`(address, port)`, no two rows share `(name, address, port)`, and every
`port` passes the CHECK. -/
def wfTable (t : Table) : Prop :=
  t.Pairwise (fun r s => ¬(r.address = s.address ∧ r.port = s.port)) ∧
  t.Pairwise (fun r s =>
    ¬(r.name = s.name ∧ r.address = s.address ∧ r.port = s.port)) ∧
  ∀ r ∈ t, 0 < r.port ∧ r.port ≤ 65535

instance (t : Table) : Decidable (wfTable t) := by
  unfold wfTable; infer_instance

end RegionService

namespace RegionService

lemma mem_do_delete {name : String} {t : Table} {r : Row} :
    r ∈ do_delete name t ↔ r ∈ t ∧ r.name ≠ name := by
  simp [do_delete, List.mem_filter]

lemma mem_do_collect {now : Int} {t : Table} {r : Row} :
    r ∈ do_collect now t ↔ r ∈ t ∧ ¬(r.updated < now - staleTTL) := by
  simp [do_collect, List.mem_filter]

lemma insertRows_ok_eq {t : Table} {rs : List Row} {t' : Table}
    (h : insertRows t rs = .ok t') : t' = t ++ rs := by
  induction rs generalizing t with
  | nil =>
    simp only [insertRows, List.foldlM] at h
    cases h
    simp
  | cons r rs ih =>
    simp only [insertRows, List.foldlM] at h
    cases hstep : insertRow t r with
    | error e =>
      rw [hstep] at h
      simp [Bind.bind, Except.bind] at h
    | ok t1 =>
      rw [hstep] at h
      simp only [Bind.bind, Except.bind] at h
      have ht1 : t1 = t ++ [r] := by
        simp only [insertRow] at hstep
        split at hstep
        · cases hstep
        · split at hstep
          · cases hstep
          · cases hstep; rfl
      have ht' := ih (t := t1) h
      simp [ht', ht1]

end RegionService

/-- C3: `collectStale` (the `_do_collect` step of `update()`) deletes exactly
the rows whose `updated` timestamp is older than 5 minutes before `now`,
regardless of owner; concretely, a row refreshed 6 minutes ago (at `now` =
600, `updated` = 240) is removed and a row refreshed 1 minute ago
(`updated` = 540) is retained. -/
theorem RegionService.collectStale_exact :
    (∀ (now : Int) (t : RegionService.Table) (r : RegionService.Row),
      r ∈ RegionService.do_collect now t ↔
        r ∈ t ∧ ¬(r.updated < now - RegionService.staleTTL)) ∧
    RegionService.do_collect 600 [⟨"peerA", "10.0.0.5", 4321, 240⟩] = [] ∧
    RegionService.do_collect 600 [⟨"peerB", "10.0.0.9", 4321, 540⟩]
      = [⟨"peerB", "10.0.0.9", 4321, 540⟩] := by
  refine ⟨fun now t r => RegionService.mem_do_collect, by decide, by decide⟩

/-- C10: `remove()` — and hence the `_do_delete` step of `update()` — deletes
only the rows with this process's name: a row with any other name keeps its
exact multiplicity in the table, every surviving row has a different name,
and `remove` is exactly the delete statement. -/
theorem RegionService.remove_frame :
    (∀ (name : String) (t : RegionService.Table) (r : RegionService.Row),
        r.name ≠ name →
        (RegionService.remove name t).count r = t.count r) ∧
    (∀ (name : String) (t : RegionService.Table) (r : RegionService.Row),
        r ∈ RegionService.remove name t → r.name ≠ name) ∧
    (∀ (name : String) (t : RegionService.Table),
        RegionService.remove name t = RegionService.do_delete name t) := by
  refine ⟨?_, ?_, fun name t => rfl⟩
  · intro name t r h
    have hp : (r.name != name) = true := by simp [h]
    simpa [RegionService.remove, RegionService.do_delete]
      using List.count_filter (l := t) hp
  · intro name t r h
    exact (RegionService.mem_do_delete.mp h).2

/-- Witness for C10 at a concrete table: a row named "other" is untouched by
`remove "self"`, and the surviving row's name differs from "self". -/
theorem RegionService.remove_frame_witness :
    (RegionService.remove "self"
        [⟨"self", "10.0.0.5", 4321, 0⟩, ⟨"other", "10.0.0.9", 80, 7⟩]).count
        ⟨"other", "10.0.0.9", 80, 7⟩
      = ([⟨"self", "10.0.0.5", 4321, 0⟩,
          ⟨"other", "10.0.0.9", 80, 7⟩] : RegionService.Table).count
          ⟨"other", "10.0.0.9", 80, 7⟩ :=
  RegionService.remove_frame.1 "self" _ _ (by decide)

namespace RegionService

lemma do_insert_ok_eq {name : String} {pairs : List (String × Nat)}
    {now : Int} {t t1 : Table}
    (h : do_insert name pairs now t = .ok t1) :
    t1 = t ++ pairs.map (fun p => ⟨name, p.1, p.2, now⟩) := by
  unfold do_insert at h
  by_cases hp : pairs.isEmpty
  · rw [if_pos hp] at h
    cases h
    have : pairs = [] := List.isEmpty_iff.mp hp
    simp [this]
  · rw [if_neg hp] at h
    exact insertRows_ok_eq h

lemma do_collect_fresh {now : Int} {u : Table}
    (h : ∀ r ∈ u, r.updated = now) : do_collect now u = u := by
  apply List.filter_eq_self.mpr
  intro r hr
  have : ¬(r.updated < now - staleTTL) := by
    rw [h r hr]; simp only [staleTTL]; omega
  simpa using this

lemma do_collect_idem {now : Int} {t : Table} :
    do_collect now (do_collect now t) = do_collect now t :=
  List.filter_eq_self.mpr (fun _ hr => (List.mem_filter.mp hr).2)

lemma do_delete_eq_self {name : String} {u : Table}
    (h : ∀ r ∈ u, r.name ≠ name) : do_delete name u = u :=
  List.filter_eq_self.mpr (fun r hr => by simpa using h r hr)

lemma do_delete_eq_nil {name : String} {u : Table}
    (h : ∀ r ∈ u, r.name = name) : do_delete name u = [] := by
  rw [do_delete, List.filter_eq_nil_iff]
  intro r hr
  simp [h r hr]

end RegionService

/-- C1: a successful `update()` runs, inside one transaction (the whole step
is a single all-or-nothing `Except` computation), exactly delete-own-rows,
then insert the current pairs under this name, then the global stale sweep —
the sweep comes last, after the self-refresh, so every pair advertised this
cycle is present (fresh, with `updated = now`) in the final table. -/
theorem RegionService.update_steps
    (name : String) (pairs : List (String × Nat)) (now : Int)
    (t t' : RegionService.Table)
    (h : RegionService.update name pairs now t = .ok t') :
    ∃ t1, RegionService.do_insert name pairs now
            (RegionService.do_delete name t) = .ok t1 ∧
      t' = RegionService.do_collect now t1 ∧
      ∀ p ∈ pairs,
        (⟨name, p.1, p.2, now⟩ : RegionService.Row) ∈ t' := by
  unfold RegionService.update at h
  cases hins : RegionService.do_insert name pairs now
      (RegionService.do_delete name t) with
  | error e => rw [hins] at h; cases h
  | ok t1 =>
    rw [hins] at h
    cases h
    refine ⟨t1, rfl, rfl, ?_⟩
    intro p hp
    have hmem : (⟨name, p.1, p.2, now⟩ : RegionService.Row) ∈ t1 := by
      rw [RegionService.do_insert_ok_eq hins]
      refine List.mem_append_right _ ?_
      exact List.mem_map.mpr ⟨p, hp, rfl⟩
    refine RegionService.mem_do_collect.mpr ⟨hmem, ?_⟩
    simp only [RegionService.staleTTL]
    omega

/-- Witness for C1: a concrete successful `update` decomposes into the three
steps and the advertised pair survives the sweep. -/
theorem RegionService.update_steps_witness :
    ∃ t1, RegionService.do_insert "self" [("10.0.0.5", 4321)] 600
            (RegionService.do_delete "self" [⟨"other", "10.0.0.9", 80, 400⟩])
            = .ok t1 ∧
      ([⟨"other", "10.0.0.9", 80, 400⟩, ⟨"self", "10.0.0.5", 4321, 600⟩]
          : RegionService.Table) = RegionService.do_collect 600 t1 ∧
      ∀ p ∈ [(("10.0.0.5" : String), (4321 : Nat))],
        (⟨"self", p.1, p.2, 600⟩ : RegionService.Row) ∈
          ([⟨"other", "10.0.0.9", 80, 400⟩, ⟨"self", "10.0.0.5", 4321, 600⟩]
            : RegionService.Table) :=
  RegionService.update_steps "self" [("10.0.0.5", 4321)] 600
    [⟨"other", "10.0.0.9", 80, 400⟩] _ (by rfl)

/-- C5: with an empty pair list (no RPC service or unbound port),
`update()` still succeeds: it deletes this process's rows, executes no
insert, and after the transaction no row carries this process's name —
a pure de-advertisement, not a skipped cycle and not an error. -/
theorem RegionService.update_deadvertise
    (name : String) (now : Int) (t : RegionService.Table) :
    RegionService.update name [] now t
      = .ok (RegionService.do_collect now (RegionService.do_delete name t)) ∧
    ∀ r ∈ RegionService.runTransactional t
        (RegionService.update name [] now t), r.name ≠ name := by
  have hupd : RegionService.update name [] now t
      = .ok (RegionService.do_collect now (RegionService.do_delete name t)) := by
    simp [RegionService.update, RegionService.do_insert]
  refine ⟨hupd, ?_⟩
  intro r hr
  rw [hupd] at hr
  simp only [RegionService.runTransactional] at hr
  exact (RegionService.mem_do_delete.mp
    (RegionService.mem_do_collect.mp hr).1).2

/-- Witness for C5: de-advertising over a concrete two-row table keeps only
the other process's fresh row. -/
theorem RegionService.update_deadvertise_witness :
    RegionService.update "self" [] 600
        [⟨"self", "10.0.0.5", 4321, 590⟩, ⟨"other", "10.0.0.9", 80, 590⟩]
      = .ok [⟨"other", "10.0.0.9", 80, 590⟩] := by
  rw [(RegionService.update_deadvertise "self" 600
    [⟨"self", "10.0.0.5", 4321, 590⟩, ⟨"other", "10.0.0.9", 80, 590⟩]).1]
  exact congrArg Except.ok (by decide)

namespace RegionService

lemma not_conflict_pair {s r : Row} (h : ¬ rowConflict s r = true) :
    ¬(s.address = r.address ∧ s.port = r.port) ∧
    ¬(s.name = r.name ∧ s.address = r.address ∧ s.port = r.port) := by
  refine ⟨fun hab => h ?_, fun habc => h ?_⟩
  · simp [rowConflict, hab.1, hab.2]
  · simp [rowConflict, habc.1, habc.2.1, habc.2.2]

lemma wfTable_filter {t : Table} (p : Row → Bool) (h : wfTable t) :
    wfTable (t.filter p) :=
  ⟨List.Pairwise.sublist (List.filter_sublist t) h.1,
   List.Pairwise.sublist (List.filter_sublist t) h.2.1,
   fun r hr => h.2.2 r (List.mem_filter.mp hr).1⟩

lemma wfTable_insertRow {t : Table} {r : Row} {t' : Table}
    (h : wfTable t) (hstep : insertRow t r = .ok t') : wfTable t' := by
  simp only [insertRow] at hstep
  by_cases hp : (!portOk r.port) = true
  · rw [if_pos hp] at hstep; cases hstep
  · rw [if_neg hp] at hstep
    by_cases hc : (t.any fun s => rowConflict s r) = true
    · rw [if_pos hc] at hstep; cases hstep
    · rw [if_neg hc] at hstep
      cases hstep
      have hport : 0 < r.port ∧ r.port ≤ 65535 := by
        have hpo : portOk r.port = true := by
          cases hpo : portOk r.port
          · simp [hpo] at hp
          · rfl
        simpa [portOk] using hpo
      have hnc : ∀ s ∈ t, ¬ rowConflict s r = true := by
        simpa using hc
      refine ⟨?_, ?_, ?_⟩
      · rw [List.pairwise_append]
        refine ⟨h.1, List.pairwise_singleton _ r, ?_⟩
        intro a ha b hb
        have hb' : b = r := by simpa using hb
        subst hb'
        exact (not_conflict_pair (hnc a ha)).1
      · rw [List.pairwise_append]
        refine ⟨h.2.1, List.pairwise_singleton _ r, ?_⟩
        intro a ha b hb
        have hb' : b = r := by simpa using hb
        subst hb'
        exact (not_conflict_pair (hnc a ha)).2
      · intro x hx
        rcases List.mem_append.mp hx with hx | hx
        · exact h.2.2 x hx
        · have hx' : x = r := by simpa using hx
          subst hx'
          exact hport

lemma wfTable_insertRows {t : Table} {rs : List Row} {t' : Table}
    (h : wfTable t) (hins : insertRows t rs = .ok t') : wfTable t' := by
  induction rs generalizing t with
  | nil =>
    simp only [insertRows, List.foldlM] at hins
    cases hins
    exact h
  | cons r rs ih =>
    simp only [insertRows, List.foldlM] at hins
    cases hstep : insertRow t r with
    | error e =>
      rw [hstep] at hins
      simp [Bind.bind, Except.bind] at hins
    | ok t1 =>
      rw [hstep] at hins
      simp only [Bind.bind, Except.bind] at hins
      exact ih (wfTable_insertRow h hstep) hins

lemma wfTable_do_insert {name : String} {pairs : List (String × Nat)}
    {now : Int} {t t' : Table}
    (h : wfTable t) (hins : do_insert name pairs now t = .ok t') :
    wfTable t' := by
  unfold do_insert at hins
  by_cases hp : pairs.isEmpty
  · rw [if_pos hp] at hins; cases hins; exact h
  · rw [if_neg hp] at hins
    exact wfTable_insertRows h hins

end RegionService

/-- C2: the uniqueness constraints of the `eventloops` table are preserved by
every `update()` transaction: starting from a table where no two rows share
`(address, port)` or `(name, address, port)` and every port passes the CHECK,
the post-transaction table (new table on success, rollback on constraint
violation) still satisfies them; an erroring `update()` leaves all prior rows
intact; and a concrete `update()` whose insert would claim an `(address,
port)` pair already owned by another name fails with a constraint error. -/
theorem RegionService.update_invariants
    (name : String) (pairs : List (String × Nat)) (now : Int)
    (t : RegionService.Table) (h : RegionService.wfTable t) :
    RegionService.wfTable (RegionService.runTransactional t
      (RegionService.update name pairs now t)) ∧
    (RegionService.update name pairs now t = .error () →
      RegionService.runTransactional t
        (RegionService.update name pairs now t) = t) ∧
    RegionService.update "n2" [("10.0.0.5", 4321)] 0
      [⟨"n1", "10.0.0.5", 4321, 0⟩] = .error () := by
  refine ⟨?_, ?_, by rfl⟩
  · cases hu : RegionService.update name pairs now t with
    | error e =>
      simpa [RegionService.runTransactional] using h
    | ok t' =>
      simp only [RegionService.runTransactional]
      unfold RegionService.update at hu
      cases hins : RegionService.do_insert name pairs now
          (RegionService.do_delete name t) with
      | error e => rw [hins] at hu; cases hu
      | ok t1 =>
        rw [hins] at hu
        cases hu
        have hwfD : RegionService.wfTable (RegionService.do_delete name t) :=
          RegionService.wfTable_filter _ h
        have hwf1 : RegionService.wfTable t1 :=
          RegionService.wfTable_do_insert hwfD hins
        exact RegionService.wfTable_filter _ hwf1
  · intro he
    simp [RegionService.runTransactional, he]

/-- Witness for C2: the invariants hold after a concrete successful
`update()` on a one-row well-formed table. -/
theorem RegionService.update_invariants_witness :
    RegionService.wfTable (RegionService.runTransactional
      [⟨"n1", "10.0.0.5", 4321, 0⟩]
      (RegionService.update "n1" [("10.0.0.5", 4321)] 0
        [⟨"n1", "10.0.0.5", 4321, 0⟩])) :=
  (RegionService.update_invariants "n1" [("10.0.0.5", 4321)] 0
    [⟨"n1", "10.0.0.5", 4321, 0⟩] (by decide)).1

namespace RegionService

lemma do_collect_append {now : Int} {a b : Table} :
    do_collect now (a ++ b) = do_collect now a ++ do_collect now b := by
  simp [do_collect]

lemma do_delete_append {name : String} {a b : Table} :
    do_delete name (a ++ b) = do_delete name a ++ do_delete name b := by
  simp [do_delete]

lemma insertRows_ok_sublist {t u : Table} {rs : List Row} {t' : Table}
    (hsub : List.Sublist u t) (h : insertRows t rs = .ok t') :
    insertRows u rs = .ok (u ++ rs) := by
  induction rs generalizing t u with
  | nil =>
    simp only [insertRows, List.foldlM, List.append_nil]
    rfl
  | cons r rs ih =>
    simp only [insertRows, List.foldlM] at h ⊢
    cases hstep : insertRow t r with
    | error e =>
      rw [hstep] at h
      simp [Bind.bind, Except.bind] at h
    | ok t1 =>
      rw [hstep] at h
      simp only [Bind.bind, Except.bind] at h
      simp only [insertRow] at hstep
      by_cases hp : (!portOk r.port) = true
      · rw [if_pos hp] at hstep; cases hstep
      · rw [if_neg hp] at hstep
        by_cases hc : (t.any fun s => rowConflict s r) = true
        · rw [if_pos hc] at hstep; cases hstep
        · rw [if_neg hc] at hstep
          cases hstep
          have hcu : ¬((u.any fun s => rowConflict s r) = true) := by
            intro hau
            rcases List.any_eq_true.mp hau with ⟨s, hs, hcs⟩
            exact hc (List.any_eq_true.mpr ⟨s, hsub.subset hs, hcs⟩)
          have hstepu : insertRow u r = .ok (u ++ [r]) := by
            simp only [insertRow]
            rw [if_neg hp, if_neg hcu]
          rw [hstepu]
          simp only [Bind.bind, Except.bind]
          have hrec := ih (hsub.append (List.Sublist.refl [r])) h
          simpa [insertRows] using hrec

end RegionService

/-- C4: `update()` is idempotent: if an `update()` with a given name, pair
set and clock succeeds and produces table `t₁`, then running `update()`
again with the same inputs succeeds and produces exactly `t₁` — repeated
cycles never accumulate duplicate rows. -/
theorem RegionService.update_idempotent
    (name : String) (pairs : List (String × Nat)) (now : Int)
    (t t₁ : RegionService.Table)
    (h : RegionService.update name pairs now t = .ok t₁) :
    RegionService.update name pairs now t₁ = .ok t₁ := by
  unfold RegionService.update at h ⊢
  cases hins : RegionService.do_insert name pairs now
      (RegionService.do_delete name t) with
  | error e => rw [hins] at h; cases h
  | ok t' =>
    rw [hins] at h
    cases h
    by_cases hp : pairs.isEmpty
    · have hpairs : pairs = [] := List.isEmpty_iff.mp hp
      subst hpairs
      have ht' : t' = RegionService.do_delete name t := by
        simpa using RegionService.do_insert_ok_eq hins
      subst ht'
      have hdel : RegionService.do_delete name
          (RegionService.do_collect now (RegionService.do_delete name t))
          = RegionService.do_collect now (RegionService.do_delete name t) :=
        RegionService.do_delete_eq_self (fun r hr =>
          (RegionService.mem_do_delete.mp
            (RegionService.mem_do_collect.mp hr).1).2)
      simp [RegionService.do_insert, hdel, RegionService.do_collect_idem]
    · have hnameR : ∀ r ∈ pairs.map
          (fun p => (⟨name, p.1, p.2, now⟩ : RegionService.Row)),
          r.name = name := by
        intro r hr; rcases List.mem_map.mp hr with ⟨p, _, rfl⟩; rfl
      have hfreshR : ∀ r ∈ pairs.map
          (fun p => (⟨name, p.1, p.2, now⟩ : RegionService.Row)),
          r.updated = now := by
        intro r hr; rcases List.mem_map.mp hr with ⟨p, _, rfl⟩; rfl
      have hRkept := RegionService.do_collect_fresh hfreshR
      have ht' : t' = RegionService.do_delete name t ++ pairs.map
          (fun p => (⟨name, p.1, p.2, now⟩ : RegionService.Row)) :=
        RegionService.do_insert_ok_eq hins
      have ht1 : RegionService.do_collect now t'
          = RegionService.do_collect now (RegionService.do_delete name t)
            ++ pairs.map
              (fun p => (⟨name, p.1, p.2, now⟩ : RegionService.Row)) := by
        rw [ht', RegionService.do_collect_append, hRkept]
      have hdel : RegionService.do_delete name
          (RegionService.do_collect now (RegionService.do_delete name t)
            ++ pairs.map
              (fun p => (⟨name, p.1, p.2, now⟩ : RegionService.Row)))
          = RegionService.do_collect now (RegionService.do_delete name t) := by
        rw [RegionService.do_delete_append,
            RegionService.do_delete_eq_self (fun r hr =>
              (RegionService.mem_do_delete.mp
                (RegionService.mem_do_collect.mp hr).1).2),
            RegionService.do_delete_eq_nil hnameR, List.append_nil]
      have hins1 : RegionService.insertRows (RegionService.do_delete name t)
          (pairs.map (fun p => (⟨name, p.1, p.2, now⟩ : RegionService.Row)))
          = .ok t' := by
        unfold RegionService.do_insert at hins
        rw [if_neg hp] at hins
        exact hins
      have hsub : List.Sublist
          (RegionService.do_collect now (RegionService.do_delete name t))
          (RegionService.do_delete name t) := by
        unfold RegionService.do_collect
        exact List.filter_sublist _
      have hins2 := RegionService.insertRows_ok_sublist hsub hins1
      rw [ht1, hdel]
      simp only [RegionService.do_insert]
      rw [if_neg hp, hins2]
      exact congrArg Except.ok
        (by rw [RegionService.do_collect_append,
                RegionService.do_collect_idem, hRkept])

/-- Witness for C4: a concrete first `update()` from the empty table, then
the same `update()` again, reproduces the same single-row table. -/
theorem RegionService.update_idempotent_witness :
    RegionService.update "self" [("10.0.0.5", 4321)] 600
        [⟨"self", "10.0.0.5", 4321, 600⟩]
      = .ok [⟨"self", "10.0.0.5", 4321, 600⟩] :=
  RegionService.update_idempotent "self" [("10.0.0.5", 4321)] 600 [] _
    (by rfl)

namespace RegionService

/-- State of `RegionAdvertisingService` as used by `stopService`:
`startCalled` is `self.starting.called` (whether the `prepare` start-up
deferred has fired), `timerRunning` whether the periodic `TimerService` is
active, and `startCancelled` whether `self.starting.cancel()` was invoked. -/
structure AdvService where
  startCalled : Bool
  timerRunning : Bool
  startCancelled : Bool
deriving DecidableEq, Repr

/-- Method `RegionAdvertisingService.stopService`: if start-up completed
(`self.starting.called`), run `remove()` on the table and then up-call to
stop the timer; otherwise cancel the pending start, leaving the table
untouched.  The sequencing in the source (the `remove` thread completes
before the up-call) is collapsed into one atomic step here. -/
def advStopService (s : AdvService) (name : String) (tbl : Table) :
    AdvService × Table :=
  if s.startCalled then
    ({ s with timerRunning := false }, remove name tbl)
  else
    ({ s with startCancelled := true }, tbl)

/-- The two bind states tracked by `RegionService`: `starting` mirrors the
`self.starting` deferred of `endpoint.listen`, which is absent before
`startService`, pending while the bind is in flight, fired with the bound
port on success, or cancelled. -/
inductive BindState where
  | notStarted
  | pending
  | bound (port : Nat)
  | cancelled
deriving DecidableEq, Repr

/-- The listening-port object (`self._port`): its `socket` attribute holds
the OS socket's bound port and is deleted when the port stops listening
(reading it then raises `AttributeError`, which `getPort` catches). -/
structure TcpPort where
  socket : Option Nat
deriving DecidableEq, Repr

/-- The mutable state of a `RegionService` instance: the `starting`
deferred and `self._port` (set by the `save_port` callback). -/
structure Listener where
  starting : BindState
  portObj : Option TcpPort
deriving DecidableEq, Repr

/-- Constructor state of `RegionService`: no start attempted,
`self._port = None`. -/
def newListener : Listener :=
  { starting := .notStarted, portObj := none }

/-- Method `RegionService.startService`: `self.starting = self.endpoint.listen(...)`,
now in flight. -/
def startListener (s : Listener) : Listener :=
  { s with starting := .pending }

/-- The `save_port` callback: when the in-flight bind resolves, record the
listening port object and its socket. -/
def save_port (s : Listener) (port : Nat) : Listener :=
  match s.starting with
  | .pending => { starting := .bound port, portObj := some ⟨some port⟩ }
  | _ => s

/-- Failures that can travel down the `starting` errback chain. -/
inductive Failure where
  | cancelledError
  | bindError
deriving DecidableEq, Repr

/-- The `ignore_cancellation` errback: `failure.trap(defer.CancelledError)`
consumes a cancellation and re-raises anything else. -/
def ignore_cancellation (f : Failure) : Option Failure :=
  match f with
  | .cancelledError => none
  | f => some f

/-- The whole errback chain installed by `startService`:
`ignore_cancellation` first, then `log.err`, which logs and consumes any
remaining failure.  Returns (failure surfaced past the chain, whether
`log.err` logged one). -/
def runStartingErrbacks (f : Failure) : Option Failure × Bool :=
  match ignore_cancellation f with
  | none => (none, false)
  | some _ => (none, true)

/-- Cancelling `self.starting` (`Deferred.cancel`): an in-flight bind fires
`CancelledError` into the errback chain; cancelling an already-fired
deferred is a no-op. -/
def cancelStarting (st : BindState) : BindState × Option Failure :=
  match st with
  | .pending => (.cancelled, some .cancelledError)
  | st => (st, none)

/-- Method `RegionService.stopService`: cancel `self.starting` (running the errback
chain on a pending start), then stop listening — a no-op succeeding
immediately when `self._port` is `None`, otherwise `stopListening()`, which
releases the socket.  Returns the new state and whether a failure surfaced
to the caller. -/
def stopListener (s : Listener) : Listener × Bool :=
  let stf := cancelStarting s.starting
  let surfaced :=
    match stf.2 with
    | none => false
    | some f => ((runStartingErrbacks f).1).isSome
  match s.portObj with
  | none => ({ starting := stf.1, portObj := none }, surfaced)
  | some _ => ({ starting := stf.1, portObj := some ⟨none⟩ }, surfaced)

/-- Method `RegionService.getPort`: read `self._port.socket` and return its bound
port; the `except AttributeError` branch returns `None` when `self._port`
is `None` or its socket is gone — the function is total and never raises. -/
def getPort (s : Listener) : Option Nat :=
  match s.portObj with
  | none => none
  | some p =>
    match p.socket with
    | none => none
    | some port => some port

end RegionService

namespace RegionService

/-- The relevant schema state of the database: whether the `eventloops`
table and the `eventloops_name_idx` index exist. -/
structure Schema where
  tableExists : Bool
  indexExists : Bool
deriving DecidableEq, Repr

/-- Rows returned by `_create_index_check_statement`: `SELECT 1` from the
catalogue when the index named `eventloops_name_idx` is present. -/
def indexCheckRows (s : Schema) : List Nat :=
  if s.indexExists then [1] else []

/-- Result of one `_do_create` run: the new schema and which DDL statements
actually created something. -/
structure CreateResult where
  schema : Schema
  createdTable : Bool
  createdIndex : Bool
deriving DecidableEq, Repr

/-- Statement sequence `_do_create`: `CREATE UNLOGGED TABLE IF NOT EXISTS` (a no-op when the
table exists), then — under the exclusive table lock taken by
`_create_lock_statement`, which serializes concurrent runs so this step is
sequential — run the index-presence check and issue `CREATE INDEX` only when
the check returned no rows.  Total: no path errors. -/
def do_create (s : Schema) : CreateResult :=
  let createdTable := !s.tableExists
  let s1 : Schema := { s with tableExists := true }
  if indexCheckRows s1 = [] then
    ⟨{ s1 with indexExists := true }, createdTable, true⟩
  else
    ⟨s1, createdTable, false⟩

/-- Method `prepare()`: runs `_do_create` inside the lock and a transaction. -/
def prepare (s : Schema) : CreateResult :=
  do_create s

end RegionService

/-- C6: `RegionAdvertisingService.stopService` behaves by state: when
start-up has not completed, it cancels the pending start and leaves the
table untouched; when start-up has completed, it deletes this process's rows
(`remove()`), stops the periodic timer, and afterwards `dump()` lists no
entry under this process's name. -/
theorem RegionService.advStop_by_state
    (s : RegionService.AdvService) (name : String)
    (tbl : RegionService.Table) :
    (s.startCalled = false →
      (RegionService.advStopService s name tbl).2 = tbl ∧
      (RegionService.advStopService s name tbl).1.startCancelled = true) ∧
    (s.startCalled = true →
      (RegionService.advStopService s name tbl).2
        = RegionService.remove name tbl ∧
      (RegionService.advStopService s name tbl).1.timerRunning = false ∧
      ∀ e ∈ RegionService.dump (RegionService.advStopService s name tbl).2,
        e.1 ≠ name) := by
  constructor
  · intro h
    simp [RegionService.advStopService, h]
  · intro h
    refine ⟨by simp [RegionService.advStopService, h],
            by simp [RegionService.advStopService, h], ?_⟩
    intro e he
    simp only [RegionService.advStopService, h, if_pos] at he
    simp only [RegionService.dump, List.mem_map] at he
    rcases he with ⟨r, hr, rfl⟩
    exact (RegionService.mem_do_delete.mp hr).2

/-- Witness for C6: stopping after a completed start on a concrete
two-process table removes exactly this process's row, and stopping while
still preparing leaves a concrete table untouched. -/
theorem RegionService.advStop_by_state_witness :
    ((RegionService.advStopService ⟨true, true, false⟩ "self"
        [⟨"self", "10.0.0.5", 4321, 0⟩, ⟨"other", "10.0.0.9", 80, 0⟩]).2
      = RegionService.remove "self"
        [⟨"self", "10.0.0.5", 4321, 0⟩, ⟨"other", "10.0.0.9", 80, 0⟩]) ∧
    ((RegionService.advStopService ⟨false, false, false⟩ "self"
        [⟨"self", "10.0.0.5", 4321, 0⟩]).2
      = [⟨"self", "10.0.0.5", 4321, 0⟩]) :=
  ⟨((RegionService.advStop_by_state ⟨true, true, false⟩ "self"
      [⟨"self", "10.0.0.5", 4321, 0⟩, ⟨"other", "10.0.0.9", 80, 0⟩]).2
      rfl).1,
   ((RegionService.advStop_by_state ⟨false, false, false⟩ "self"
      [⟨"self", "10.0.0.5", 4321, 0⟩]).1 rfl).1⟩

/-- C7: `RegionService.stopService` is safe and idempotent: stopping while
the bind is in flight cancels the pending start (it is not raced against),
the resulting `CancelledError` is trapped by `ignore_cancellation` and never
surfaces, no call to stop surfaces an error, and a second stop neither
raises nor changes the state further. -/
theorem RegionService.listenerStop_safe :
    (∀ s : RegionService.Listener, s.starting = .pending →
      ((RegionService.stopListener s).1.starting = .cancelled ∧
       (RegionService.stopListener s).2 = false)) ∧
    (∀ s : RegionService.Listener, (RegionService.stopListener s).2 = false) ∧
    (∀ s : RegionService.Listener,
      RegionService.stopListener (RegionService.stopListener s).1
        = ((RegionService.stopListener s).1, false)) ∧
    RegionService.ignore_cancellation .cancelledError = none := by
  have hnosurf : ∀ s : RegionService.Listener,
      (RegionService.stopListener s).2 = false := by
    intro s
    rcases s with ⟨st, po⟩
    cases st <;> cases po <;>
      simp [RegionService.stopListener, RegionService.cancelStarting,
        RegionService.runStartingErrbacks, RegionService.ignore_cancellation]
  refine ⟨?_, hnosurf, ?_, rfl⟩
  · intro s h
    rcases s with ⟨st, po⟩
    cases h
    refine ⟨?_, hnosurf _⟩
    cases po <;>
      simp [RegionService.stopListener, RegionService.cancelStarting]
  · intro s
    rcases s with ⟨st, po⟩
    cases st <;> cases po <;>
      simp [RegionService.stopListener, RegionService.cancelStarting,
        RegionService.runStartingErrbacks, RegionService.ignore_cancellation]

/-- Witness for C7: stopping a listener whose bind is in flight cancels it
without surfacing an error. -/
theorem RegionService.listenerStop_safe_witness :
    (RegionService.stopListener
        (RegionService.startListener RegionService.newListener)).1.starting
      = .cancelled ∧
    (RegionService.stopListener
        (RegionService.startListener RegionService.newListener)).2 = false :=
  RegionService.listenerStop_safe.1
    (RegionService.startListener RegionService.newListener) rfl

/-- C8: `RegionService.getPort` is total (the `AttributeError` branch makes
it return `None` rather than raise): before `startService`, while the bind
is in flight, and after a cancelled start it returns `None`; once the bind
resolves with the OS-assigned port — which the OS draws from `[1, 65535]` —
it returns exactly that port, never zero and never a stale value. -/
theorem RegionService.getPort_spec :
    RegionService.getPort RegionService.newListener = none ∧
    RegionService.getPort
      (RegionService.startListener RegionService.newListener) = none ∧
    RegionService.getPort
      ((RegionService.stopListener
        (RegionService.startListener RegionService.newListener)).1) = none ∧
    (∀ port : Nat, 1 ≤ port → port ≤ 65535 →
      RegionService.getPort
          (RegionService.save_port
            (RegionService.startListener RegionService.newListener) port)
        = some port ∧
      ∀ q ∈ RegionService.getPort
          (RegionService.save_port
            (RegionService.startListener RegionService.newListener) port),
        1 ≤ q ∧ q ≤ 65535) := by
  refine ⟨rfl, rfl, rfl, ?_⟩
  intro port h1 h2
  refine ⟨rfl, ?_⟩
  intro q hq
  simp [RegionService.getPort, RegionService.save_port,
    RegionService.startListener, RegionService.newListener] at hq
  subst hq
  exact ⟨h1, h2⟩

/-- Witness for C8: a bind resolving with port 4321 makes `getPort` return
exactly 4321, within bounds. -/
theorem RegionService.getPort_spec_witness :
    RegionService.getPort
        (RegionService.save_port
          (RegionService.startListener RegionService.newListener) 4321)
      = some 4321 :=
  (RegionService.getPort_spec.2.2.2 4321 (by decide) (by decide)).1

/-- C9: `prepare()` creates the table only when absent (`IF NOT EXISTS`),
checks for the `name` index under the exclusive table lock, and issues
`CREATE INDEX` exactly when the check returns no rows; a second `prepare()`
run performs no duplicate table or index creation, changes nothing, and
does not error (`prepare` is total). -/
theorem RegionService.prepare_idempotent (s : RegionService.Schema) :
    (RegionService.prepare s).schema = ⟨true, true⟩ ∧
    ((RegionService.prepare s).createdTable = !s.tableExists) ∧
    ((RegionService.prepare s).createdIndex
      = (RegionService.indexCheckRows ⟨true, s.indexExists⟩).isEmpty) ∧
    (RegionService.prepare ((RegionService.prepare s).schema)).createdTable
      = false ∧
    (RegionService.prepare ((RegionService.prepare s).schema)).createdIndex
      = false ∧
    (RegionService.prepare ((RegionService.prepare s).schema)).schema
      = (RegionService.prepare s).schema := by
  rcases s with ⟨te, ie⟩
  cases te <;> cases ie <;>
    simp [RegionService.prepare, RegionService.do_create,
      RegionService.indexCheckRows]

/-- Witness for C3: the concrete 6-minute-old row really is swept. -/
theorem RegionService.collectStale_exact_witness :
    RegionService.do_collect 600 [⟨"peerA", "10.0.0.5", 4321, 240⟩] = [] :=
  RegionService.collectStale_exact.2.1

/-- Witness for C9: preparing a fresh database creates both the table and
the index. -/
theorem RegionService.prepare_idempotent_witness :
    (RegionService.prepare ⟨false, false⟩).schema = ⟨true, true⟩ :=
  (RegionService.prepare_idempotent ⟨false, false⟩).1
